import Mathlib

/-!
Shallow embedding of the `preview-markdown-files` VS Code extension
(sources: `src/configManager.ts`, `src/diffDetector.ts`, `src/tabTracker.ts`,
`src/previewManager.ts`, `src/extension.ts`, `src/types.ts`).

Host-side objects (URIs, tabs, tab groups) are modelled as plain data; the
extension's event handlers become pure functions from state and event data to
a new state plus a list of requested host actions (commands executed, tabs
closed, focus changes).  Timestamps are natural numbers (`Date.now()`),
asynchronous command execution is parametrised by a boolean saying whether
the awaited command succeeded or threw.
-/

/-! ## String helpers (Node `path.basename` / `path.extname`, JS string
methods), implemented by structural recursion on the character list so that
they reduce inside the kernel. -/

/-- JS `String.prototype.split` with a one-character separator, on character
lists: `"" → [""]`, `"a,b" → ["a", "b"]`, `"," → ["", ""]`. -/
def splitCharList (sep : Char) : List Char → List (List Char)
  | [] => [[]]
  | c :: cs =>
    match splitCharList sep cs with
    | [] => [[]]
    | h :: t => if c = sep then [] :: h :: t else (c :: h) :: t

/-- JS `String.prototype.split` with a one-character separator. -/
def splitChar (sep : Char) (s : String) : List String :=
  (splitCharList sep s.data).map (fun l => ⟨l⟩)

/-- JS `String.prototype.toLowerCase` (ASCII, as used here). -/
def toLowerStr (s : String) : String :=
  ⟨s.data.map Char.toLower⟩

/-- JS `String.prototype.trim`: strip whitespace from both ends. -/
def trimStr (s : String) : String :=
  ⟨((s.data.dropWhile Char.isWhitespace).reverse.dropWhile Char.isWhitespace).reverse⟩

/-- JS `String.prototype.startsWith`. -/
def startsWithStr (s pre : String) : Bool :=
  pre.data.isPrefixOf s.data

/-- Does `needle` occur as a contiguous run inside `hay`? -/
def hasSubstrList (needle : List Char) : List Char → Bool
  | [] => needle.isEmpty
  | c :: rest => needle.isPrefixOf (c :: rest) || hasSubstrList needle rest

/-- JS `String.prototype.includes`: substring containment. -/
def strContains (hay sub : String) : Bool :=
  hasSubstrList sub.data hay.data

/-- POSIX `path.basename`: the component after the last `/`. -/
def basename (p : String) : String :=
  (splitChar '/' p).getLastD ""

/-- Index of the last `.` in a character list, if any. -/
def lastDotIdx : List Char → Option Nat
  | [] => none
  | c :: cs =>
    match lastDotIdx cs with
    | some i => some (i + 1)
    | none => if c = '.' then some 0 else none

/-- Node `path.extname`: suffix of the basename from its last `.` (dot
included); a leading dot (dotfile) or no dot yields the empty string. -/
def extname (p : String) : String :=
  let b := basename p
  match lastDotIdx b.data with
  | none => ""
  | some 0 => ""
  | some i => ⟨b.data.drop i⟩

/-! ## Data model: URIs, tabs, tab groups, documents -/

/-- A VS Code `Uri`; the code only ever uses `toString()` (field `uriStr`,
used as map/set key and for equality) and `fsPath` (used for names). -/
structure Uri where
  uriStr : String
  fsPath : String
deriving DecidableEq, Repr

/-- The tab input kinds the extension inspects: `TabInputText`,
`TabInputTextDiff`, `TabInputWebview`, and anything else. -/
inductive TabInput where
  | text (uri : Uri)
  | textDiff (original modified : Uri)
  | webview (viewType : String)
  | other
deriving DecidableEq, Repr

/-- A VS Code `Tab`: a label plus an input. -/
structure Tab where
  label : String
  input : TabInput
deriving DecidableEq, Repr

/-- The host editor state a handler can observe: all tab groups (each a list
of tabs), the active tab, and the active text editor (its document URI and
view column, when present). -/
structure EditorState where
  groups : List (List Tab)
  activeTab : Option Tab
  activeEditor : Option (Uri × Nat)
deriving DecidableEq, Repr

/-- A `TextDocument`: its URI and language id. -/
structure Document where
  uri : Uri
  languageId : String
deriving DecidableEq, Repr

/-! ## `types.ts` -/

/-- Model of `SupportedLanguage` from `types.ts`. -/
inductive SupportedLanguage where
  | markdown
  | asciidoc
  | restructuredtext
deriving DecidableEq, Repr

/-- The string form of a supported language id. -/
def SupportedLanguage.toStr : SupportedLanguage → String
  | .markdown => "markdown"
  | .asciidoc => "asciidoc"
  | .restructuredtext => "restructuredtext"

/-- A pair of preview commands (`toSide` / `sameGroup`). -/
structure PreviewCommandPair where
  toSide : String
  sameGroup : String
deriving DecidableEq, Repr

/-- Model of `PREVIEW_COMMANDS` from `types.ts`. -/
def PREVIEW_COMMANDS : SupportedLanguage → PreviewCommandPair
  | .markdown => ⟨"markdown.showPreviewToSide", "markdown.showPreview"⟩
  | .asciidoc => ⟨"asciidoc.showPreviewToSide", "asciidoc.showPreview"⟩
  | .restructuredtext =>
      ⟨"restructuredtext.showPreviewToSide", "restructuredtext.showPreview"⟩

/-- Model of `PREVIEW_VIEW_TYPES` from `types.ts`. -/
def PREVIEW_VIEW_TYPES : SupportedLanguage → String
  | .markdown => "markdown.preview"
  | .asciidoc => "asciidoc.preview"
  | .restructuredtext => "restructuredtext.preview"

/-- Model of `FILE_EXTENSIONS` from `types.ts`: extension → language id. -/
def FILE_EXTENSIONS : String → Option SupportedLanguage
  | ".md" => some .markdown
  | ".markdown" => some .markdown
  | ".mdown" => some .markdown
  | ".mkd" => some .markdown
  | ".adoc" => some .asciidoc
  | ".asciidoc" => some .asciidoc
  | ".rst" => some .restructuredtext
  | ".rest" => some .restructuredtext
  | _ => none

/-- Model of `ExtensionConfig` from `types.ts`. -/
structure ExtensionConfig where
  enabled : Bool
  openPreviewToSide : Bool
  autoClosePreview : Bool
  openOnGitDiff : Bool
  previewOnlyMode : Bool
  preserveFocus : Bool
  languages : String
deriving DecidableEq, Repr

/-! ## `configManager.ts` -/

/-- The valid language ids (`validLanguages` in `parseLanguages`). -/
def validLanguages : List String := ["markdown", "asciidoc", "restructuredtext"]

/-- The comma-split, trimmed, lowercased entries of a languages setting that
are valid language ids (the `parsed` local of `ConfigManager.parseLanguages`). -/
def parsedLanguageEntries (languagesStr : String) : List String :=
  (((splitChar (Char.ofNat 44) languagesStr)).map (fun s => toLowerStr (trimStr s))).filter
    (fun s => validLanguages.contains s)

/-- Model of `ConfigManager.parseLanguages`: the list whose members form the enabled
language set (`new Set(parsed.length > 0 ? parsed : ['markdown'])`). -/
def parseLanguages (languagesStr : String) : List String :=
  let parsed := parsedLanguageEntries languagesStr
  if parsed.length > 0 then parsed else ["markdown"]

/-- Model of `ConfigManager.isLanguageEnabled` (membership in the parsed set). -/
def isLanguageEnabled (config : ExtensionConfig) (languageId : SupportedLanguage) : Bool :=
  (parseLanguages config.languages).contains languageId.toStr

/-! ## `diffDetector.ts` -/

/-- Whether a tab input is a `TabInputTextDiff`. -/
def isTextDiffInput : TabInput → Bool
  | .textDiff _ _ => true
  | _ => false

/-- Model of `DiffDetector.isDiffEditor`: the active tab exists and shows a diff. -/
def isDiffEditor (activeTab : Option Tab) : Bool :=
  match activeTab with
  | none => false
  | some tab => isTextDiffInput tab.input

/-- Whether a tab is a diff tab having `uri` as its original or modified side. -/
def diffTabShowsUri (uri : Uri) (tab : Tab) : Bool :=
  match tab.input with
  | .textDiff original modified =>
      original.uriStr = uri.uriStr || modified.uriStr = uri.uriStr
  | _ => false

/-- Model of `DiffDetector.isDocumentInDiffView`: some tab in some group is a diff tab
whose original or modified side is `uri`. -/
def isDocumentInDiffView (groups : List (List Tab)) (uri : Uri) : Bool :=
  groups.any (fun group => group.any (diffTabShowsUri uri))

/-! ## `tabTracker.ts` -/

/-- Model of `TabTracker.DEBOUNCE_MS`. -/
def DEBOUNCE_MS : Nat := 100

/-- Model of `TabTracker.getExpectedPreviewLabel`: `"Preview " + basename(fsPath)`. -/
def getExpectedPreviewLabel (uri : Uri) : String :=
  "Preview " ++ basename uri.fsPath

/-- Model of `TabTracker.isSupported`: the lowercased extension is a known key. -/
def isSupported (uri : Uri) : Bool :=
  (FILE_EXTENSIONS (toLowerStr (extname uri.fsPath))).isSome

/-- Model of `TabTracker.getLanguageId`: language for the lowercased extension. -/
def getLanguageIdUri (uri : Uri) : Option SupportedLanguage :=
  FILE_EXTENSIONS (toLowerStr (extname uri.fsPath))

/-- The per-tab match used by `TabTracker.findPreviewTab`: a webview tab whose
label is the expected label, or whose view type is the language's preview view
type and whose label contains the basename. -/
def previewTabMatches (uri : Uri) (expectedViewType : String) (tab : Tab) : Bool :=
  match tab.input with
  | .webview viewType =>
      tab.label = getExpectedPreviewLabel uri ||
        (viewType = expectedViewType && strContains tab.label (basename uri.fsPath))
  | _ => false

/-- Model of `TabTracker.findPreviewTab`: first matching webview tab across all groups,
or `none` when the extension maps to no supported language. -/
def findPreviewTab (groups : List (List Tab)) (uri : Uri) : Option Tab :=
  match getLanguageIdUri uri with
  | none => none
  | some languageId =>
      groups.flatten.find? (previewTabMatches uri (PREVIEW_VIEW_TYPES languageId))

/-- Model of `TabTracker.isPreviewOpen`. -/
def isPreviewOpen (groups : List (List Tab)) (uri : Uri) : Bool :=
  (findPreviewTab groups uri).isSome

/-- The recorded close timestamp for a key (`get(key) || 0`). -/
def lookupTime (m : List (String × Nat)) (key : String) : Nat :=
  ((m.find? (fun kv => kv.1 = key)).map (fun kv => kv.2)).getD 0

/-- Model of `Map.set` on the debounce map. -/
def setTime (m : List (String × Nat)) (key : String) (t : Nat) : List (String × Nat) :=
  (key, t) :: m.filter (fun kv => kv.1 != key)

/-! ## Requested host actions -/

/-- A side effect the extension requests from the host: executing a preview
command for a URI, closing one tab, closing a batch of tabs, waiting, or
showing a text document to restore focus. -/
inductive HostAction where
  | executeCommand (command : String) (uri : Uri)
  | closeTab (tab : Tab)
  | closeTabs (tabs : List Tab)
  | delay (ms : Nat)
  | showTextDocument (uri : Uri) (viewColumn : Nat)
deriving DecidableEq, Repr

/-- The mutable state of the extension: the current configuration snapshot
(`ConfigManager._config`), `PreviewManager._openedPreviews`,
`PreviewManager._previewOnlyClosedUris`, `PreviewManager._pendingOpens`
(keys only; the timers are collapsed), and
`TabTracker._lastProcessedClose`. -/
structure SysState where
  config : ExtensionConfig
  openedPreviews : List String
  previewOnlyClosedUris : List String
  pendingOpens : List String
  lastProcessedClose : List (String × Nat)
deriving DecidableEq, Repr

/-- Result of `TabTracker.closePreviewForFile`: the returned boolean, the
updated debounce map and the requested host actions. -/
structure ClosePreviewResult where
  result : Bool
  lastProcessedClose : List (String × Nat)
  actions : List HostAction
deriving DecidableEq, Repr

/-- Model of `TabTracker.closePreviewForFile` (the host `tabGroups.close` call is
modelled as succeeding): debounce by recorded timestamp, then look for the
preview tab and request closing it. -/
def closePreviewForFile (lastMap : List (String × Nat)) (now : Nat)
    (groups : List (List Tab)) (uri : Uri) : ClosePreviewResult :=
  let key := uri.uriStr
  let lastProcessed := lookupTime lastMap key
  if now - lastProcessed < DEBOUNCE_MS then
    ⟨false, lastMap, []⟩
  else
    let lastMap' := setTime lastMap key now
    match findPreviewTab groups uri with
    | some previewTab => ⟨true, lastMap', [HostAction.closeTab previewTab]⟩
    | none => ⟨false, lastMap', []⟩

/-- Model of `TabTracker.cleanupDebounceMap`: drop entries older than
`now - DEBOUNCE_MS * 10`. -/
def cleanupDebounceMap (lastMap : List (String × Nat)) (now : Nat) :
    List (String × Nat) :=
  lastMap.filter (fun kv => !(kv.2 < now - DEBOUNCE_MS * 10))

/-! ## `previewManager.ts` -/

/-- Supported language ids as used by `isSupportedDocument` /
`getLanguageId` in `previewManager.ts` (language-id check first). -/
def langOfString : String → Option SupportedLanguage
  | "markdown" => some .markdown
  | "asciidoc" => some .asciidoc
  | "restructuredtext" => some .restructuredtext
  | _ => none

/-- Model of `PreviewManager.isSupportedDocument`: by language id, else by extension. -/
def isSupportedDocument (doc : Document) : Bool :=
  (langOfString doc.languageId).isSome ||
    (FILE_EXTENSIONS (toLowerStr (extname doc.uri.fsPath))).isSome

/-- Model of `PreviewManager.getLanguageId`: the document's language id when
supported, else the language for its lowercased extension. -/
def getLanguageIdDoc (doc : Document) : Option SupportedLanguage :=
  match langOfString doc.languageId with
  | some l => some l
  | none => FILE_EXTENSIONS (toLowerStr (extname doc.uri.fsPath))

/-- The per-tab check of `PreviewManager.closeAllMarkdownPreviews`: a webview
tab whose view type is one of the three preview view types or whose label
starts with `"Preview "`. -/
def isMarkupPreviewTab (tab : Tab) : Bool :=
  match tab.input with
  | .webview viewType =>
      (viewType = "markdown.preview" || viewType = "asciidoc.preview" ||
        viewType = "restructuredtext.preview") ||
        startsWithStr tab.label "Preview "
  | _ => false

/-- Model of `PreviewManager.closeAllMarkdownPreviews`: collect all markup preview
tabs and, when there are any, request closing them in one batch. -/
def closeAllMarkdownPreviews (groups : List (List Tab)) : List HostAction :=
  let tabsToClose := groups.flatten.filter isMarkupPreviewTab
  if tabsToClose.isEmpty then [] else [HostAction.closeTabs tabsToClose]

/-- The text tab showing `uri`, as searched by
`PreviewManager.closeSourceEditor` (groups in order, tabs in order). -/
def findSourceTab (groups : List (List Tab)) (uri : Uri) : Option Tab :=
  groups.flatten.find? (fun tab =>
    match tab.input with
    | .text u => u.uriStr = uri.uriStr
    | _ => false)

/-- Model of `PreviewManager.closeSourceEditor` (the host close call is modelled as
succeeding): mark the URI as closed by preview-only mode, then request
closing the first matching text tab, if any. -/
def closeSourceEditor (st : SysState) (groups : List (List Tab)) (uri : Uri) :
    SysState × List HostAction :=
  let key := uri.uriStr
  let st' := { st with previewOnlyClosedUris := key :: st.previewOnlyClosedUris }
  match findSourceTab groups uri with
  | some tab => (st', [HostAction.closeTab tab])
  | none => (st', [])

/-- Model of `PreviewManager.openPreviewIfNeeded`.  `openSucceeds` says whether the
awaited `executeCommand` for the preview command succeeds or throws; the
`catch` branch removes the key from the opened set again. -/
def openPreviewIfNeeded (env : EditorState) (openSucceeds : Bool)
    (st : SysState) (doc : Document) : SysState × List HostAction :=
  let config := st.config
  let key := doc.uri.uriStr
  if st.openedPreviews.contains key then
    (st, [])
  else if !config.previewOnlyMode && isPreviewOpen env.groups doc.uri then
    ({ st with openedPreviews := key :: st.openedPreviews }, [])
  else if !config.openOnGitDiff && isDiffEditor env.activeTab then
    (st, [])
  else if !config.openOnGitDiff && isDocumentInDiffView env.groups doc.uri then
    (st, [])
  else
    match getLanguageIdDoc doc with
    | none => (st, [])
    | some languageId =>
      let command :=
        if config.openPreviewToSide then (PREVIEW_COMMANDS languageId).toSide
        else (PREVIEW_COMMANDS languageId).sameGroup
      let st1 := { st with openedPreviews := key :: st.openedPreviews }
      let preActions :=
        if config.previewOnlyMode then closeAllMarkdownPreviews env.groups else []
      if openSucceeds then
        if config.previewOnlyMode then
          let closed := closeSourceEditor st1 env.groups doc.uri
          (closed.1,
            preActions ++ [HostAction.executeCommand command doc.uri] ++ closed.2)
        else
          match env.activeEditor with
          | some (activeUri, activeViewColumn) =>
            if config.preserveFocus then
              (st1, preActions ++ [HostAction.executeCommand command doc.uri] ++
                [HostAction.delay 50, HostAction.showTextDocument activeUri activeViewColumn])
            else (st1, preActions ++ [HostAction.executeCommand command doc.uri])
          | none => (st1, preActions ++ [HostAction.executeCommand command doc.uri])
      else
        ({ st1 with openedPreviews := st1.openedPreviews.filter (fun k => k != key) },
          preActions ++ [HostAction.executeCommand command doc.uri])

/-- Model of `PreviewManager.handleDocumentOpen`: the guard checks, then (collapsing
the 50 ms debounce timer, which nets out on `_pendingOpens`) the call to
`openPreviewIfNeeded`. -/
def handleDocumentOpen (env : EditorState) (openSucceeds : Bool)
    (st : SysState) (doc : Document) : SysState × List HostAction :=
  if !st.config.enabled then (st, [])
  else if !isSupportedDocument doc then (st, [])
  else
    match getLanguageIdDoc doc with
    | none => (st, [])
    | some languageId =>
      if !isLanguageEnabled st.config languageId then (st, [])
      else openPreviewIfNeeded env openSucceeds st doc

/-- Processing of one closed tab inside `PreviewManager.handleTabChanges`. -/
def handleClosedTab (env : EditorState) (now : Nat) (st : SysState)
    (tab : Tab) : SysState × List HostAction :=
  match tab.input with
  | .text uri =>
    let key := uri.uriStr
    if isSupported uri then
      if st.previewOnlyClosedUris.contains key then
        ({ st with previewOnlyClosedUris :=
            st.previewOnlyClosedUris.filter (fun k => k != key) }, [])
      else
        let res := closePreviewForFile st.lastProcessedClose now env.groups uri
        ({ st with
            lastProcessedClose := res.lastProcessedClose,
            openedPreviews := st.openedPreviews.filter (fun k => k != key) },
          res.actions)
    else (st, [])
  | _ => (st, [])

/-- Model of `PreviewManager.handleTabChanges`: guard on `enabled` and
`autoClosePreview`, process each closed tab, then (when the 10 % random
draw fires, parameter `doCleanup`) prune the debounce map. -/
def handleTabChanges (env : EditorState) (now : Nat) (doCleanup : Bool)
    (st : SysState) (closed : List Tab) : SysState × List HostAction :=
  if !(st.config.enabled && st.config.autoClosePreview) then (st, [])
  else
    let folded := closed.foldl
      (fun (acc : SysState × List HostAction) tab =>
        let step := handleClosedTab env now acc.1 tab
        (step.1, acc.2 ++ step.2))
      (st, [])
    if doCleanup then
      ({ folded.1 with lastProcessedClose :=
          cleanupDebounceMap folded.1.lastProcessedClose now }, folded.2)
    else folded

/-- Model of `PreviewManager.handleEditorActivation`. -/
def handleEditorActivation (env : EditorState) (openSucceeds : Bool)
    (st : SysState) (doc : Document) : SysState × List HostAction :=
  if !st.config.enabled then (st, [])
  else if st.config.previewOnlyMode then (st, [])
  else if !isSupportedDocument doc then (st, [])
  else
    match getLanguageIdDoc doc with
    | none => (st, [])
    | some languageId =>
      if !isLanguageEnabled st.config languageId then (st, [])
      else
        let key := doc.uri.uriStr
        if st.pendingOpens.contains key || st.openedPreviews.contains key then
          (st, [])
        else if !isPreviewOpen env.groups doc.uri then
          openPreviewIfNeeded env openSucceeds st doc
        else (st, [])

/-! ## Host events and the event-driven run -/

/-- The host-delivered events the extension reacts to
(`registerEventListeners` in `previewManager.ts`, configuration changes in
`configManager.ts`). -/
inductive HostEvent where
  | docOpen (doc : Document) (openSucceeds : Bool)
  | tabChange (closed : List Tab) (now : Nat) (doCleanup : Bool)
  | editorActivate (doc : Document) (openSucceeds : Bool)
  | docClose (doc : Document)
  | configChange (newConfig : ExtensionConfig)
deriving DecidableEq, Repr

/-- Dispatch of one host event to its handler. `docClose` is the
`onDidCloseTextDocument` listener, which only removes the key from
`_openedPreviews`; `configChange` reloads the configuration snapshot. -/
def processEvent (env : EditorState) (st : SysState) :
    HostEvent → SysState × List HostAction
  | .docOpen doc openSucceeds => handleDocumentOpen env openSucceeds st doc
  | .tabChange closed now doCleanup => handleTabChanges env now doCleanup st closed
  | .editorActivate doc openSucceeds => handleEditorActivation env openSucceeds st doc
  | .docClose doc =>
      ({ st with openedPreviews :=
          st.openedPreviews.filter (fun k => k != doc.uri.uriStr) }, [])
  | .configChange newConfig => ({ st with config := newConfig }, [])

/-- The extension's whole behaviour: fold the handlers over the sequence of
host-delivered events, collecting the requested actions. -/
def run (env : EditorState) (st : SysState) : List HostEvent → SysState × List HostAction
  | [] => (st, [])
  | e :: es =>
    let step := processEvent env st e
    let rest := run env step.1 es
    (rest.1, step.2 ++ rest.2)

/-! ## Concrete fixtures used to instantiate the theorems -/

/-- A markdown document at `/a/x.md`. -/
def exDoc : Document := ⟨⟨"file:///a/x.md", "/a/x.md"⟩, "markdown"⟩

/-- A text tab showing `/a/x.md`. -/
def exSrcTab : Tab := ⟨"x.md", TabInput.text ⟨"file:///a/x.md", "/a/x.md"⟩⟩

/-- The markdown preview tab for `/a/x.md`. -/
def exPreviewTab : Tab := ⟨"Preview x.md", TabInput.webview "markdown.preview"⟩

/-- A stale markdown preview tab for another file. -/
def exOldPreviewTab : Tab := ⟨"Preview old.md", TabInput.webview "markdown.preview"⟩

/-- A git diff tab whose modified side is `/a/x.md`. -/
def exDiffTab : Tab :=
  ⟨"x.md (Working Tree)",
    TabInput.textDiff ⟨"git:/a/x.md", "/a/x.md"⟩ ⟨"file:///a/x.md", "/a/x.md"⟩⟩

/-- The default configuration (`loadConfig` defaults). -/
def exConfig : ExtensionConfig := ⟨true, true, true, false, false, true, "markdown"⟩

/-- The default configuration with preview-only mode on. -/
def exConfigPOM : ExtensionConfig := ⟨true, true, true, false, true, true, "markdown"⟩

/-- Fresh state under the default configuration. -/
def exSt : SysState := ⟨exConfig, [], [], [], []⟩

/-- Fresh state with preview-only mode on. -/
def exStPOM : SysState := ⟨exConfigPOM, [], [], [], []⟩

/-- State already tracking `/a/x.md` as opened. -/
def exStOpened : SysState := ⟨exConfig, ["file:///a/x.md"], [], [], []⟩

/-! ## Helper lemmas -/

/-- Lemma: `diffTabShowsUri` characterised by the tab's input. -/
theorem diffTabShowsUri_iff (uri : Uri) (tab : Tab) :
    diffTabShowsUri uri tab = true ↔
      ∃ original modified, tab.input = TabInput.textDiff original modified ∧
        (original.uriStr = uri.uriStr ∨ modified.uriStr = uri.uriStr) := by
  cases h : tab.input <;> simp [diffTabShowsUri, h] <;> aesop

/-- Lemma: `isTextDiffInput` characterised. -/
theorem isTextDiffInput_iff (input : TabInput) :
    isTextDiffInput input = true ↔
      ∃ original modified, input = TabInput.textDiff original modified := by
  cases input <;> simp [isTextDiffInput]

/-- Lemma: `previewTabMatches` characterised by the tab's input. -/
theorem previewTabMatches_iff (uri : Uri) (expectedViewType : String) (tab : Tab) :
    previewTabMatches uri expectedViewType tab = true ↔
      ∃ viewType, tab.input = TabInput.webview viewType ∧
        (tab.label = getExpectedPreviewLabel uri ∨
          (viewType = expectedViewType ∧
            strContains tab.label (basename uri.fsPath) = true)) := by
  cases h : tab.input <;> simp [previewTabMatches, h]

/-- Filtering with `!= a` keeps a list without `a` intact. -/
theorem filter_bne_of_not_mem {l : List String} {a : String} (h : a ∉ l) :
    l.filter (fun k => k != a) = l := by
  induction l with
  | nil => rfl
  | cons b bs ih =>
    have hba : b ≠ a := fun hb => h (hb ▸ List.mem_cons_self b bs)
    have hbs : a ∉ bs := fun hb => h (List.mem_cons_of_mem b hb)
    simp [List.filter_cons, bne_iff_ne, hba, ih hbs]

/-! ## Claims -/

/-- C4: `closePreviewForFile` is debounced per source URI: a call within
`DEBOUNCE_MS` of the recorded timestamp for that URI returns `false`, leaves
the debounce map unchanged and requests nothing; a call outside the window
records the new timestamp and proceeds to search for the preview tab,
requesting its closure exactly when one is found. -/
theorem closePreviewForFile_debounce (lastMap : List (String × Nat)) (now : Nat)
    (groups : List (List Tab)) (uri : Uri) :
    (now - lookupTime lastMap uri.uriStr < DEBOUNCE_MS →
      closePreviewForFile lastMap now groups uri =
        ⟨false, lastMap, []⟩) ∧
    (¬ now - lookupTime lastMap uri.uriStr < DEBOUNCE_MS →
      (closePreviewForFile lastMap now groups uri).lastProcessedClose =
          setTime lastMap uri.uriStr now ∧
        ∀ tab, (findPreviewTab groups uri = some tab →
            (closePreviewForFile lastMap now groups uri).actions =
              [HostAction.closeTab tab]) ∧
          (findPreviewTab groups uri = none →
            (closePreviewForFile lastMap now groups uri).actions = [])) := by
  constructor
  · intro h
    simp [closePreviewForFile, h]
  · intro h
    refine ⟨?_, fun tab => ⟨fun hf => ?_, fun hf => ?_⟩⟩ <;>
      simp [closePreviewForFile, h] <;> cases hg : findPreviewTab groups uri <;>
        simp [hg] <;> simp [hg] at hf <;> simp [hf]

/-- Witness for C4 at a concrete map and clock: a second call 50 ms after the
recorded close is skipped. -/
theorem closePreviewForFile_debounce_witness :
    closePreviewForFile [("file:///a/x.md", 1000)] 1050 []
        ⟨"file:///a/x.md", "/a/x.md"⟩ =
      ⟨false, [("file:///a/x.md", 1000)], []⟩ :=
  (closePreviewForFile_debounce [("file:///a/x.md", 1000)] 1050 []
    ⟨"file:///a/x.md", "/a/x.md"⟩).1 (by decide)

/-- C5: the expected preview label is `"Preview "` followed by the base name;
`findPreviewTab` yields a tab only if it is a webview tab whose label equals
the expected label, or whose view type is the language's preview view type
and whose label contains the base name; and it yields nothing when the
extension maps to no supported language. -/
theorem findPreviewTab_sound (groups : List (List Tab)) (uri : Uri) :
    getExpectedPreviewLabel uri = "Preview " ++ basename uri.fsPath ∧
    (getLanguageIdUri uri = none → findPreviewTab groups uri = none) ∧
    (∀ tab, findPreviewTab groups uri = some tab →
      ∃ languageId, getLanguageIdUri uri = some languageId ∧
        ∃ viewType, tab.input = TabInput.webview viewType ∧
          (tab.label = getExpectedPreviewLabel uri ∨
            (viewType = PREVIEW_VIEW_TYPES languageId ∧
              strContains tab.label (basename uri.fsPath) = true))) := by
  refine ⟨rfl, ?_, ?_⟩
  · intro h
    simp [findPreviewTab, h]
  · intro tab htab
    unfold findPreviewTab at htab
    cases hl : getLanguageIdUri uri with
    | none => rw [hl] at htab; exact absurd htab (by simp)
    | some languageId =>
      rw [hl] at htab
      exact ⟨languageId, rfl,
        (previewTabMatches_iff uri (PREVIEW_VIEW_TYPES languageId) tab).mp
          (List.find?_some htab)⟩

/-- Witness for C5: on a concrete tab set holding one markdown preview tab,
the found tab is a webview with the expected label. -/
theorem findPreviewTab_sound_witness :
    ∃ languageId,
      getLanguageIdUri ⟨"file:///a/x.md", "/a/x.md"⟩ = some languageId ∧
      ∃ viewType,
        (Tab.mk "Preview x.md" (TabInput.webview "markdown.preview")).input =
          TabInput.webview viewType ∧
        ((Tab.mk "Preview x.md" (TabInput.webview "markdown.preview")).label =
            getExpectedPreviewLabel ⟨"file:///a/x.md", "/a/x.md"⟩ ∨
          (viewType = PREVIEW_VIEW_TYPES languageId ∧
            strContains (Tab.mk "Preview x.md"
              (TabInput.webview "markdown.preview")).label
              (basename "/a/x.md") = true)) :=
  (findPreviewTab_sound [[⟨"Preview x.md", TabInput.webview "markdown.preview"⟩]]
      ⟨"file:///a/x.md", "/a/x.md"⟩).2.2
    ⟨"Preview x.md", TabInput.webview "markdown.preview"⟩ (by decide)

/-- C6: `isDocumentInDiffView` holds exactly when some tab in some group is a
text-diff tab whose original or modified side equals the URI; `isDiffEditor`
holds exactly when there is an active tab and its input is a text diff, and
is false with no active tab. -/
theorem diffDetector_correct (groups : List (List Tab)) (uri : Uri) :
    (isDocumentInDiffView groups uri = true ↔
      ∃ group ∈ groups, ∃ tab ∈ group,
        ∃ original modified, tab.input = TabInput.textDiff original modified ∧
          (original.uriStr = uri.uriStr ∨ modified.uriStr = uri.uriStr)) ∧
    isDiffEditor none = false ∧
    (∀ tab, isDiffEditor (some tab) = true ↔
      ∃ original modified, tab.input = TabInput.textDiff original modified) := by
  refine ⟨?_, rfl, fun tab => ?_⟩
  · simp only [isDocumentInDiffView, List.any_eq_true]
    constructor
    · rintro ⟨group, hg, tab, ht, hm⟩
      exact ⟨group, hg, tab, ht, (diffTabShowsUri_iff uri tab).mp hm⟩
    · rintro ⟨group, hg, tab, ht, hm⟩
      exact ⟨group, hg, tab, ht, (diffTabShowsUri_iff uri tab).mpr hm⟩
  · exact isTextDiffInput_iff tab.input

/-- Witness for C6 on a concrete diff tab. -/
theorem diffDetector_correct_witness :
    ∃ group ∈ [[Tab.mk "x.md (Working Tree)"
        (TabInput.textDiff ⟨"git:/a/x.md", "/a/x.md"⟩ ⟨"file:///a/x.md", "/a/x.md"⟩)]],
      ∃ tab ∈ group, ∃ original modified,
        tab.input = TabInput.textDiff original modified ∧
        (original.uriStr = "file:///a/x.md" ∨ modified.uriStr = "file:///a/x.md") :=
  ((diffDetector_correct [[⟨"x.md (Working Tree)",
        TabInput.textDiff ⟨"git:/a/x.md", "/a/x.md"⟩ ⟨"file:///a/x.md", "/a/x.md"⟩⟩]]
      ⟨"file:///a/x.md", "/a/x.md"⟩).1).mp (by decide)

/-- C10: `parseLanguages` splits on commas, trims and lowercases entries,
keeps only the valid language ids, and yields a non-empty set that is exactly
`{markdown}` when no entry is valid. -/
theorem parseLanguages_correct (languagesStr : String) :
    parseLanguages languagesStr ≠ [] ∧
    (∀ l, l ∈ parseLanguages languagesStr → l ∈ validLanguages) ∧
    (parsedLanguageEntries languagesStr = [] →
      parseLanguages languagesStr = ["markdown"]) ∧
    (∀ l, l ∈ parseLanguages languagesStr ↔
      (l ∈ parsedLanguageEntries languagesStr ∨
        (parsedLanguageEntries languagesStr = [] ∧ l = "markdown"))) := by
  have hval : ∀ l, l ∈ parsedLanguageEntries languagesStr → l ∈ validLanguages := by
    intro l hl
    have := List.of_mem_filter hl
    simpa using this
  cases hp : parsedLanguageEntries languagesStr with
  | nil =>
    simp [parseLanguages, hp, validLanguages]
  | cons a as =>
    have hres : parseLanguages languagesStr = a :: as := by
      simp [parseLanguages, hp]
    rw [hp] at hval
    refine ⟨by simp [hres], by rw [hres]; exact hval, by simp, ?_⟩
    intro l
    rw [hres]
    simp

/-- Witness for C10: the empty setting yields the singleton markdown set. -/
theorem parseLanguages_correct_witness :
    parseLanguages "" = ["markdown"] :=
  (parseLanguages_correct "").2.2.1 (by decide)

/-- Lemma: `closeSourceEditor` only marks the URI in `previewOnlyClosedUris`. -/
theorem closeSourceEditor_fst (st : SysState) (groups : List (List Tab)) (uri : Uri) :
    (closeSourceEditor st groups uri).1 =
      { st with previewOnlyClosedUris := uri.uriStr :: st.previewOnlyClosedUris } := by
  unfold closeSourceEditor
  cases h : findSourceTab groups uri <;> simp [h]

/-- A successful `openPreviewIfNeeded` either leaves the opened set alone or
pushes the document's key onto it. -/
theorem openPreviewIfNeeded_success_openedPreviews (env : EditorState)
    (st : SysState) (doc : Document) :
    (openPreviewIfNeeded env true st doc).1.openedPreviews = st.openedPreviews ∨
    (openPreviewIfNeeded env true st doc).1.openedPreviews =
      doc.uri.uriStr :: st.openedPreviews := by
  unfold openPreviewIfNeeded
  by_cases h1 : doc.uri.uriStr ∈ st.openedPreviews
  · simp [h1]
  · by_cases h2 : st.config.previewOnlyMode = false ∧
        isPreviewOpen env.groups doc.uri = true
    · simp [h1, h2]
    · by_cases h3 : st.config.openOnGitDiff = false ∧
          isDiffEditor env.activeTab = true
      · simp [h1, h2, h3]
      · by_cases h4 : st.config.openOnGitDiff = false ∧
            isDocumentInDiffView env.groups doc.uri = true
        · simp [h1, h2, h3, h4]
        · cases hgl : getLanguageIdDoc doc with
          | none => simp [h1, h2, h3, h4, hgl]
          | some languageId =>
            by_cases hpom : st.config.previewOnlyMode = true
            · simp [h1, h2, h3, h4, hgl, hpom, closeSourceEditor_fst]
            · rw [Bool.not_eq_true] at hpom
              simp only [hpom, true_and] at h2
              cases hae : env.activeEditor with
              | none => simp [h1, h2, h3, h4, hgl, hpom, hae]
              | some ae =>
                by_cases hpf : st.config.preserveFocus = true <;>
                  simp [h1, h2, h3, h4, hgl, hpom, hae, hpf]

/-- C1 (amended): on a document open with `openOnGitDiff` false while the
active tab is a text diff or the document sits in a diff tab,
`openPreviewIfNeeded` executes no command; the opened-previews set is
unchanged unless the document's preview is already open with preview-only
mode off, in which case the URI is recorded as opened (still without any
command). -/
theorem openPreviewIfNeeded_diff_skip (env : EditorState) (openSucceeds : Bool)
    (st : SysState) (doc : Document)
    (hgit : st.config.openOnGitDiff = false)
    (hdiff : isDiffEditor env.activeTab = true ∨
      isDocumentInDiffView env.groups doc.uri = true) :
    (openPreviewIfNeeded env openSucceeds st doc).2 = [] ∧
    ((openPreviewIfNeeded env openSucceeds st doc).1 = st ∨
      (st.config.previewOnlyMode = false ∧
        isPreviewOpen env.groups doc.uri = true ∧
        (openPreviewIfNeeded env openSucceeds st doc).1 =
          { st with openedPreviews := doc.uri.uriStr :: st.openedPreviews })) := by
  unfold openPreviewIfNeeded
  by_cases h1 : doc.uri.uriStr ∈ st.openedPreviews
  · simp [h1]
  · by_cases h2 : st.config.previewOnlyMode = false ∧
        isPreviewOpen env.groups doc.uri = true
    · refine ⟨by simp [h1, h2], Or.inr ⟨h2.1, h2.2, by simp [h1, h2]⟩⟩
    · by_cases h3 : isDiffEditor env.activeTab = true
      · simp [h1, h2, hgit, h3]
      · have h4 : isDocumentInDiffView env.groups doc.uri = true :=
          hdiff.resolve_left h3
        simp [h1, h2, hgit, h3, h4]

/-- Counterexample to C1 as stated: with `openOnGitDiff` false and the
document open in a diff tab, but its preview tab already open and
preview-only mode off, `openPreviewIfNeeded` adds the URI to the
opened-previews set (though it still runs no command). -/
theorem openPreviewIfNeeded_diff_skip_counterexample :
    exSt.config.openOnGitDiff = false ∧
    isDocumentInDiffView [[exPreviewTab, exDiffTab]] exDoc.uri = true ∧
    (openPreviewIfNeeded ⟨[[exPreviewTab, exDiffTab]], none, none⟩ true
      exSt exDoc).2 = [] ∧
    (openPreviewIfNeeded ⟨[[exPreviewTab, exDiffTab]], none, none⟩ true
        exSt exDoc).1.openedPreviews = ["file:///a/x.md"] ∧
    (openPreviewIfNeeded ⟨[[exPreviewTab, exDiffTab]], none, none⟩ true
        exSt exDoc).1.openedPreviews ≠ exSt.openedPreviews := by
  decide

/-- Witness for C1 (amended) at a concrete diff-view state with no preview
tab open. -/
theorem openPreviewIfNeeded_diff_skip_witness :
    (openPreviewIfNeeded ⟨[[exDiffTab]], some exDiffTab, none⟩ true
      exSt exDoc).2 = [] ∧
    ((openPreviewIfNeeded ⟨[[exDiffTab]], some exDiffTab, none⟩ true
        exSt exDoc).1 = exSt ∨
      (exSt.config.previewOnlyMode = false ∧
        isPreviewOpen [[exDiffTab]] exDoc.uri = true ∧
        (openPreviewIfNeeded ⟨[[exDiffTab]], some exDiffTab, none⟩ true
            exSt exDoc).1 =
          { exSt with openedPreviews := exDoc.uri.uriStr :: exSt.openedPreviews })) :=
  openPreviewIfNeeded_diff_skip ⟨[[exDiffTab]], some exDiffTab, none⟩ true exSt exDoc
    (by decide) (Or.inl (by decide))

/-- C9: when the preview command throws, `openPreviewIfNeeded` removes the
key it had just added, restoring the opened-previews tracking (and not
touching the preview-only marks), even though the command was attempted. -/
theorem openPreviewIfNeeded_failure_restores (env : EditorState) (st : SysState)
    (doc : Document) (languageId : SupportedLanguage)
    (h1 : doc.uri.uriStr ∉ st.openedPreviews)
    (h2 : ¬(st.config.previewOnlyMode = false ∧
      isPreviewOpen env.groups doc.uri = true))
    (h3 : ¬(st.config.openOnGitDiff = false ∧ isDiffEditor env.activeTab = true))
    (h4 : ¬(st.config.openOnGitDiff = false ∧
      isDocumentInDiffView env.groups doc.uri = true))
    (h5 : getLanguageIdDoc doc = some languageId) :
    (openPreviewIfNeeded env false st doc).1.openedPreviews = st.openedPreviews ∧
    (openPreviewIfNeeded env false st doc).1.previewOnlyClosedUris =
      st.previewOnlyClosedUris ∧
    ∃ command, HostAction.executeCommand command doc.uri ∈
      (openPreviewIfNeeded env false st doc).2 := by
  unfold openPreviewIfNeeded
  refine ⟨?_, ?_, ⟨if st.config.openPreviewToSide then
      (PREVIEW_COMMANDS languageId).toSide
    else (PREVIEW_COMMANDS languageId).sameGroup, ?_⟩⟩ <;>
    simp [h1, h2, h3, h4, h5, List.filter_cons, filter_bne_of_not_mem h1]

/-- Witness for C9: a failing open at the fresh default state leaves the
opened set empty. -/
theorem openPreviewIfNeeded_failure_restores_witness :
    (openPreviewIfNeeded ⟨[], none, none⟩ false exSt exDoc).1.openedPreviews =
      exSt.openedPreviews :=
  (openPreviewIfNeeded_failure_restores ⟨[], none, none⟩ exSt exDoc
    SupportedLanguage.markdown (by decide) (by decide) (by decide) (by decide)
    (by decide)).1

/-- C2: in preview-only mode, a successful open first requests closing every
markup preview tab, then executes the preview command, then requests closing
the document's source tab, marking the URI both as opened and as closed by
preview-only mode; every markup preview tab is part of the batch close. -/
theorem openPreviewIfNeeded_previewOnly_sequence (env : EditorState)
    (st : SysState) (doc : Document) (languageId : SupportedLanguage)
    (srcTab : Tab)
    (hpom : st.config.previewOnlyMode = true)
    (h1 : doc.uri.uriStr ∉ st.openedPreviews)
    (h3 : ¬(st.config.openOnGitDiff = false ∧ isDiffEditor env.activeTab = true))
    (h4 : ¬(st.config.openOnGitDiff = false ∧
      isDocumentInDiffView env.groups doc.uri = true))
    (h5 : getLanguageIdDoc doc = some languageId)
    (hsrc : findSourceTab env.groups doc.uri = some srcTab) :
    openPreviewIfNeeded env true st doc =
      ({ st with
          openedPreviews := doc.uri.uriStr :: st.openedPreviews,
          previewOnlyClosedUris := doc.uri.uriStr :: st.previewOnlyClosedUris },
        closeAllMarkdownPreviews env.groups ++
          [HostAction.executeCommand
              (if st.config.openPreviewToSide then
                (PREVIEW_COMMANDS languageId).toSide
              else (PREVIEW_COMMANDS languageId).sameGroup) doc.uri] ++
          [HostAction.closeTab srcTab]) ∧
    (∀ tab ∈ env.groups.flatten, isMarkupPreviewTab tab = true →
      ∃ tabs, HostAction.closeTabs tabs ∈ closeAllMarkdownPreviews env.groups ∧
        tab ∈ tabs) := by
  constructor
  · have h2 : ¬(st.config.previewOnlyMode = false ∧
        isPreviewOpen env.groups doc.uri = true) := by
      simp [hpom]
    unfold openPreviewIfNeeded closeSourceEditor
    simp [h1, h2, h3, h4, h5, hpom, hsrc]
  · intro tab htab hmark
    have hmem : tab ∈ env.groups.flatten.filter isMarkupPreviewTab :=
      List.mem_filter.mpr ⟨htab, hmark⟩
    have hcl : closeAllMarkdownPreviews env.groups =
        [HostAction.closeTabs (env.groups.flatten.filter isMarkupPreviewTab)] := by
      simp only [closeAllMarkdownPreviews]
      rw [if_neg]
      intro hemp
      rw [List.isEmpty_eq_true] at hemp
      rw [hemp] at hmem
      cases hmem
    exact ⟨env.groups.flatten.filter isMarkupPreviewTab,
      by rw [hcl]; exact List.mem_singleton.mpr rfl, hmem⟩

/-- Witness for C2 on a concrete tab state holding a stale preview and the
source tab. -/
theorem openPreviewIfNeeded_previewOnly_sequence_witness :
    openPreviewIfNeeded ⟨[[exOldPreviewTab, exSrcTab]], none, none⟩ true
        exStPOM exDoc =
      ({ exStPOM with
          openedPreviews := exDoc.uri.uriStr :: exStPOM.openedPreviews,
          previewOnlyClosedUris :=
            exDoc.uri.uriStr :: exStPOM.previewOnlyClosedUris },
        closeAllMarkdownPreviews [[exOldPreviewTab, exSrcTab]] ++
          [HostAction.executeCommand
              (if exStPOM.config.openPreviewToSide then
                (PREVIEW_COMMANDS SupportedLanguage.markdown).toSide
              else (PREVIEW_COMMANDS SupportedLanguage.markdown).sameGroup)
              exDoc.uri] ++
          [HostAction.closeTab exSrcTab]) :=
  (openPreviewIfNeeded_previewOnly_sequence
    ⟨[[exOldPreviewTab, exSrcTab]], none, none⟩ exStPOM exDoc
    SupportedLanguage.markdown exSrcTab (by decide) (by decide) (by decide)
    (by decide) (by decide) (by decide)).1

/-- C3: with the extension enabled and `autoClosePreview` on, a closed text
tab with a supported extension that was marked by preview-only mode is only
unmarked (no close request, opened set untouched); an unmarked one delegates
to the debounced `closePreviewForFile` and drops the URI from the
opened-previews set. -/
theorem handleTabChanges_autoClose (env : EditorState) (now : Nat)
    (st : SysState) (tab : Tab) (uri : Uri)
    (hen : st.config.enabled = true)
    (hac : st.config.autoClosePreview = true)
    (hin : tab.input = TabInput.text uri)
    (hsup : isSupported uri = true) :
    (uri.uriStr ∈ st.previewOnlyClosedUris →
      handleTabChanges env now false st [tab] =
        ({ st with previewOnlyClosedUris :=
            st.previewOnlyClosedUris.filter (fun k => k != uri.uriStr) }, [])) ∧
    (uri.uriStr ∉ st.previewOnlyClosedUris →
      handleTabChanges env now false st [tab] =
        ({ st with
            lastProcessedClose := (closePreviewForFile st.lastProcessedClose
              now env.groups uri).lastProcessedClose,
            openedPreviews :=
              st.openedPreviews.filter (fun k => k != uri.uriStr) },
          (closePreviewForFile st.lastProcessedClose now
            env.groups uri).actions)) := by
  constructor <;> intro hmark <;>
    simp [handleTabChanges, handleClosedTab, hen, hac, hin, hsup, hmark]

/-- Witness for C3: closing the source tab at a state with its preview open
requests closing the preview tab and clears the tracking entry. -/
theorem handleTabChanges_autoClose_witness :
    handleTabChanges ⟨[[exPreviewTab]], none, none⟩ 1000 false exStOpened
        [exSrcTab] =
      ({ exStOpened with
          lastProcessedClose := (closePreviewForFile exStOpened.lastProcessedClose
            1000 [[exPreviewTab]] ⟨"file:///a/x.md", "/a/x.md"⟩).lastProcessedClose,
          openedPreviews :=
            exStOpened.openedPreviews.filter (fun k => k != "file:///a/x.md") },
        (closePreviewForFile exStOpened.lastProcessedClose 1000 [[exPreviewTab]]
          ⟨"file:///a/x.md", "/a/x.md"⟩).actions) :=
  (handleTabChanges_autoClose ⟨[[exPreviewTab]], none, none⟩ 1000 exStOpened
    exSrcTab ⟨"file:///a/x.md", "/a/x.md"⟩ (by decide) (by decide) (by decide)
    (by decide)).2 (by decide)

/-- C8: once a document's URI is tracked in the opened-previews set, a
document-open or editor-activation event for it is a no-op (no command, no
state change); a successful open attempt never removes an already-tracked
URI (only failure, tab auto-close or full document close do); configuration
changes leave the set alone. -/
theorem openedPreviews_once_per_cycle (env : EditorState) (openSucceeds : Bool)
    (st : SysState) (doc : Document)
    (h : doc.uri.uriStr ∈ st.openedPreviews) :
    handleDocumentOpen env openSucceeds st doc = (st, []) ∧
    handleEditorActivation env openSucceeds st doc = (st, []) ∧
    (∀ st2 doc2 k, k ∈ st2.openedPreviews →
      k ∈ (openPreviewIfNeeded env true st2 doc2).1.openedPreviews) ∧
    (∀ newConfig : ExtensionConfig,
      (processEvent env st (HostEvent.configChange newConfig)).1.openedPreviews =
        st.openedPreviews) := by
  have hop : openPreviewIfNeeded env openSucceeds st doc = (st, []) := by
    unfold openPreviewIfNeeded
    simp [h]
  refine ⟨?_, ?_, ?_, fun _ => rfl⟩
  · unfold handleDocumentOpen
    cases hgl : getLanguageIdDoc doc <;> simp [hgl, hop]
  · unfold handleEditorActivation
    cases hgl : getLanguageIdDoc doc <;> simp [hgl, hop, h]
  · intro st2 doc2 k hk
    rcases openPreviewIfNeeded_success_openedPreviews env st2 doc2 with heq | heq
    · rw [heq]; exact hk
    · rw [heq]; exact List.mem_cons_of_mem _ hk

/-- Witness for C8: with `/a/x.md` already tracked, a further document open
changes nothing and runs nothing. -/
theorem openedPreviews_once_per_cycle_witness :
    handleDocumentOpen ⟨[], none, none⟩ true exStOpened exDoc =
      (exStOpened, []) :=
  (openedPreviews_once_per_cycle ⟨[], none, none⟩ true exStOpened exDoc
    (by decide)).1

/-- C7: the system is purely event-driven: an empty event sequence produces
no actions, and every action of a run is produced by the handler of some
delivered event. -/
theorem run_actions_only_from_events (env : EditorState) (st : SysState)
    (events : List HostEvent) :
    (run env st []).2 = [] ∧
    ∀ action ∈ (run env st events).2, ∃ e ∈ events, ∃ st2,
      action ∈ (processEvent env st2 e).2 := by
  refine ⟨rfl, ?_⟩
  induction events generalizing st with
  | nil =>
    intro action ha
    simp [run] at ha
  | cons e es ih =>
    intro action ha
    simp only [run, List.mem_append] at ha
    cases ha with
    | inl hl => exact ⟨e, List.mem_cons_self e es, st, hl⟩
    | inr hr =>
      obtain ⟨e2, he2, st2, h2⟩ := ih (processEvent env st e).1 action hr
      exact ⟨e2, List.mem_cons_of_mem e he2, st2, h2⟩

/-- Witness for C7: the single preview command of a one-event run is traced
back to that document-open event. -/
theorem run_actions_only_from_events_witness :
    ∃ e ∈ [HostEvent.docOpen exDoc true], ∃ st2,
      HostAction.executeCommand "markdown.showPreviewToSide" exDoc.uri ∈
        (processEvent ⟨[], none, none⟩ st2 e).2 :=
  (run_actions_only_from_events ⟨[], none, none⟩ exSt
      [HostEvent.docOpen exDoc true]).2
    (HostAction.executeCommand "markdown.showPreviewToSide" exDoc.uri)
    (by decide)
